import Mathlib

/-!
Verification of the motion-control core of team 4560's FTC robot
(`code/Common.h`): joystick input shaping (`scaleJoystick`), holonomic
drive kinematics (`cap100`, `moveRobot`, `spin`), the closed-loop
turn-to-heading controller (`turnToHeading`) and the arm stepper
(`armStep`).

Modelling conventions:
* C `int` arithmetic is modelled as `Int` (values in this code stay far
  from any overflow boundary), and C integer division / remainder
  (truncation toward zero) as `Int.tdiv` / `Int.tmod`.
* ROBOTC `float` values are modelled as real numbers, with an explicit
  truncation toward zero (`trunc`) at every float-to-int assignment.
* The heading sensor and the arm motor encoder are external inputs;
  they are modelled as read traces `ℕ → ℤ`, consumed one value per
  poll.  The blocking loops of `turnToHeading` and `armStep` need not
  terminate, so they are modelled with an explicit fuel parameter:
  result `none` means the loop was still running when the fuel ran out.
* Motor and sensor effects of the heading controller are recorded in an
  event log (`Event`), so that "no actuation" and "what spin command was
  issued" are provable statements.
-/

namespace FTC4560

/-! ## InputShaper (`scaleJoystick`, Common.h lines 51-100) -/

/-- The constant `kMaximumPowerLevel` (Common.h line 40). -/
def kMaximumPowerLevel : ℤ := 100

/-- The 33-entry lookup table `nLogScale` from `scaleJoystick`
(Common.h lines 58-65). -/
def nLogScale : List ℤ :=
  [0, 0, 6, 7, 8, 9, 10, 11,
   12, 14, 15, 17, 18, 22, 22, 24,
   30, 33, 36, 40, 43, 47, 50, 55,
   60, 66, 72, 77, 81, 89, 95, 100,
   100]

/-- The entry clamp of `scaleJoystick` (Common.h lines 68-71):
`if (yOrig < 0) yScaled = max(yOrig, -127); else yScaled = min(yOrig, 127);`. -/
def clampRaw (yOrig : ℤ) : ℤ :=
  if yOrig < 0 then max yOrig (-127) else min yOrig 127

/-- The logarithmic branch of `scaleJoystick` (Common.h lines 73-82):
divide by 4 (C division truncates toward zero), look the bucket up in
`nLogScale`, reapplying the sign of the input. -/
def logCurve (yScaled : ℤ) : ℤ :=
  let i := yScaled.tdiv 4
  if 0 ≤ i then nLogScale.getD i.toNat 0 else -(nLogScale.getD (-i).toNat 0)

/-- The linear branch of `scaleJoystick` (Common.h lines 83-89):
dead band below 10, otherwise `yScaled * 100 / 127`. -/
def linCurve (yScaled : ℤ) : ℤ :=
  if |yScaled| < 10 then 0 else (yScaled * 100).tdiv 127

/-- `scaleJoystick` (Common.h lines 51-100).  The process-wide flag
`bUseLogarithmicScale` is passed explicitly as `useLog`; the default
argument `nMaxPower = kMaximumPowerLevel` is passed explicitly. -/
def scaleJoystick (useLog : Bool) (yOrig nMaxPower : ℤ) : ℤ :=
  let yScaled := clampRaw yOrig
  let yCurved := if useLog then logCurve yScaled else linCurve yScaled
  if nMaxPower < kMaximumPowerLevel ∧ 0 < nMaxPower then
    (yCurved * nMaxPower).tdiv kMaximumPowerLevel
  else
    yCurved

/-! ## DriveKinematics (`cap100`, `moveRobot`, `spin`, Common.h lines 139-181) -/

/-- `cap100` (Common.h lines 139-145). -/
def cap100 (value : ℤ) : ℤ :=
  if 0 < value then min value 100 else max value (-100)

/-- The four wheel motor registers `motorNW`, `motorNE`, `motorSE`,
`motorSW`. -/
structure Wheels where
  nw : ℤ
  ne : ℤ
  se : ℤ
  sw : ℤ
deriving DecidableEq

/-- `spin` (Common.h lines 178-181): assigns `speed` itself to all four
wheel motors; no capping is applied inside `spin`. -/
def spin (speed : ℤ) : Wheels :=
  { nw := speed, ne := speed, se := speed, sw := speed }

/-- Truncation toward zero, the C float-to-int conversion. -/
noncomputable def trunc (r : ℝ) : ℤ :=
  if 0 ≤ r then ⌊r⌋ else ⌈r⌉

/-- `moveRobot` (Common.h lines 155-169).  `cosDegrees`/`sinDegrees`
take degrees; `cap100(speed)` converts the float `speed` to `int`
first (truncation), and each wheel assignment truncates the float mix
back to an `int` motor value. -/
noncomputable def moveRobot (speed angle : ℝ) : Wheels :=
  let capped : ℤ := cap100 (trunc speed)
  let x : ℝ := Real.cos (angle * Real.pi / 180) * capped
  let y : ℝ := Real.sin (angle * Real.pi / 180) * capped
  { nw := trunc ((-x - y) / 2), ne := trunc ((-x + y) / 2),
    se := trunc ((x + y) / 2), sw := trunc ((x - y) / 2) }

/-! ## HeadingController (`turnToHeading`, Common.h lines 190-223) -/

/-- Observable effects of the heading controller: a call `spin(s)` or a
heading-sensor read `HTMCreadHeading(sensorCompass)`. -/
inductive Event where
  | spinCmd (speed : ℤ)
  | sensorRead (value : ℤ)
deriving DecidableEq

/-- The `direction` computation of `turnToHeading` (Common.h line 203).
It is computed by the source but never used afterwards (dead store);
kept here for completeness.  C `%` is `Int.tmod`. -/
def turnDirection (heading startAngle : ℤ) : ℤ :=
  if 180 < (heading - startAngle).tmod 360 then 1 else -1

/-- The `while` loop of `turnToHeading` (Common.h lines 205-221), one
fuel unit per iteration.  Arguments after the fuel: `heading`, `speed`,
`t` (index of the next sensor read in the trace), `lastReading`,
`numReadings`.  The recursive retry `turnToHeading(heading, speed+10)`
of the stall branch is inlined (entry guard `speed+10 > 100`, fresh
start read, loop with `numReadings = 0`); `turnToHeading` below is the
non-recursive wrapper, and `turnToHeading_stall_unfold` proves the
inlined code equal to a call of the wrapper. -/
def turnLoop (sensor : ℕ → ℤ) : ℕ → ℤ → ℤ → ℕ → ℤ → ℕ → Option Bool × List Event
  | 0, _, _, _, _, _ => (none, [])
  | fuel + 1, heading, speed, t, lastReading, numReadings =>
    let currentReading := sensor t
    if heading = currentReading then
      (some true, [Event.sensorRead currentReading])
    else
      let issued := [Event.sensorRead currentReading, Event.spinCmd (20 * heading)]
      let numReadings' := if currentReading = lastReading then numReadings + 1 else 0
      if 5 < numReadings' then
        if 100 < speed + 10 then
          (some false, issued ++ [Event.spinCmd 0])
        else
          let r := turnLoop sensor fuel heading (speed + 10) (t + 2) (sensor (t + 1)) 0
          (r.1, issued ++ Event.spinCmd 0 :: Event.sensorRead (sensor (t + 1)) :: r.2)
      else
        let r := turnLoop sensor fuel heading speed (t + 1) currentReading numReadings'
        (r.1, issued ++ r.2)

/-- `turnToHeading` (Common.h lines 190-223): guard `speed > 100`, then
the start read (`startAngle = lastReading = HTMCreadHeading(...)`) and
the aligning loop with `numReadings = 0`.  `t` is the position of the
call in the sensor trace; `none` means fuel ran out while still
looping. -/
def turnToHeading (sensor : ℕ → ℤ) (fuel : ℕ) (heading speed : ℤ) (t : ℕ) :
    Option Bool × List Event :=
  if 100 < speed then (some false, [])
  else
    let startAngle := sensor t
    let r := turnLoop sensor fuel heading speed (t + 1) startAngle 0
    (r.1, Event.sensorRead startAngle :: r.2)

/-! ## ArmStepper (`armStep`, Common.h lines 266-284) -/

/-- A busy-poll loop over the encoder trace: returns the index of the
first poll whose reading satisfies `stop`, or `none` if the fuel runs
out first. -/
def armLoop (enc : ℕ → ℤ) (stop : ℤ → Bool) : ℕ → ℕ → Option ℕ
  | _, 0 => none
  | n, fuel + 1 => if stop (enc n) then some n else armLoop enc stop (n + 1) fuel

/-- `armStep` (Common.h lines 266-284).  The encoder is reset to zero
and then polled; for `direction = 1` (i.e. `speed > 0`) the loop is
`while (nMotorEncoder[motorArm] < abs(stepSize))`, otherwise
`while (nMotorEncoder[motorArm] > -abs(stepSize))`.  `enc n` is the
encoder reading at the `n`-th poll after the reset; the result is the
index of the poll at which the loop exits (`none` = fuel exhausted,
the loop was still spinning). -/
def armStep (enc : ℕ → ℤ) (speed stepSize : ℤ) (fuel : ℕ) : Option ℕ :=
  let direction : ℤ := if 0 < speed then 1 else -1
  if direction = 1 then
    armLoop enc (fun e => decide (|stepSize| ≤ e)) 0 fuel
  else
    armLoop enc (fun e => decide (e ≤ -|stepSize|)) 0 fuel

/-! ## Helper lemmas -/

/-- `cap100` is the identity on `[-100, 100]`. -/
theorem cap100_eq_self {s : ℤ} (h1 : -100 ≤ s) (h2 : s ≤ 100) : cap100 s = s := by
  unfold cap100
  split_ifs with h
  · exact min_eq_left h2
  · exact max_eq_left h1

/-- If no reading of the trace ever equals the target heading, the
aligning loop never produces `some true`, whatever the fuel, speed,
position, last reading and stall counter. -/
theorem turnLoop_ne_true (sensor : ℕ → ℤ) (heading : ℤ) (hs : ∀ n, sensor n ≠ heading) :
    ∀ (fuel : ℕ) (speed : ℤ) (t : ℕ) (last : ℤ) (num : ℕ),
      (turnLoop sensor fuel heading speed t last num).1 ≠ some true := by
  intro fuel
  induction fuel with
  | zero =>
    intro speed t last num
    simp [turnLoop]
  | succ f ih =>
    intro speed t last num
    have hcur : ¬ heading = sensor t := fun h => hs t h.symm
    simp only [turnLoop]
    rw [if_neg hcur]
    split_ifs <;>
      first
        | exact ih (speed + 10) (t + 2) (sensor (t + 1)) 0
        | exact ih speed (t + 1) (sensor t) _
        | simp

/-- Every `spin` command the aligning loop ever issues is either
`20 * heading` or the stall stop `0`. -/
theorem turnLoop_spin_values (sensor : ℕ → ℤ) (heading : ℤ) :
    ∀ (fuel : ℕ) (speed : ℤ) (t : ℕ) (last : ℤ) (num : ℕ) (s : ℤ),
      Event.spinCmd s ∈ (turnLoop sensor fuel heading speed t last num).2 →
      s = 20 * heading ∨ s = 0 := by
  intro fuel
  induction fuel with
  | zero =>
    intro speed t last num s h
    simp [turnLoop] at h
  | succ f ih =>
    intro speed t last num s h
    simp only [turnLoop] at h
    by_cases hcur : heading = sensor t
    · rw [if_pos hcur] at h
      simp at h
    · rw [if_neg hcur] at h
      split_ifs at h <;> simp at h <;>
        first
          | tauto
          | (rcases h with h | h | h
             · exact Or.inl h
             · exact Or.inr h
             · exact ih _ _ _ _ s h)
          | (rcases h with h | h
             · exact Or.inl h
             · exact ih _ _ _ _ s h)

/-- On a frozen sensor trace (every read returns `c ≠ heading`) the
aligning loop entered with stall counter `num` stalls after the
remaining `j = 6 - num` iterations and hands over to a retry of
`turnToHeading` at `speed + 10`. -/
theorem turnLoop_frozen (c heading : ℤ) (hne : heading ≠ c) :
    ∀ (j f : ℕ) (speed : ℤ) (t num : ℕ), 1 ≤ j → num + j = 6 →
      (turnLoop (fun _ => c) (j + f) heading speed t c num).1 =
      (turnToHeading (fun _ => c) f heading (speed + 10) (t + j)).1 := by
  intro j
  induction j with
  | zero =>
    intro f speed t num h1 _
    exact absurd h1 (by omega)
  | succ j ih =>
    intro f speed t num _ hnum
    rw [show j + 1 + f = (j + f) + 1 from by omega]
    simp only [turnLoop]
    rw [if_neg hne]
    simp only [if_true]
    rcases Nat.eq_zero_or_pos j with hj | hj
    · subst hj
      simp only [Nat.zero_add]
      rw [if_pos (by omega : 5 < num + 1)]
      unfold turnToHeading
      split_ifs with h100
      · rfl
      · rfl
    · rw [if_neg (by omega : ¬ 5 < num + 1)]
      rw [show t + (j + 1) = (t + 1) + j from by omega]
      exact ih f speed (t + 1) (num + 1) hj (by omega)

/-- On a frozen sensor trace one whole `turnToHeading` attempt (entry
read plus six identical loop polls) consumes 6 fuel and turns into the
retry at `speed + 10`. -/
theorem turnToHeading_frozen_attempt (c heading : ℤ) (hne : heading ≠ c)
    (f t : ℕ) (speed : ℤ) (hsp : speed ≤ 100) :
    (turnToHeading (fun _ => c) (6 + f) heading speed t).1 =
    (turnToHeading (fun _ => c) f heading (speed + 10) (t + 7)).1 := by
  have hlhs : (turnToHeading (fun _ => c) (6 + f) heading speed t).1 =
      (turnLoop (fun _ => c) (6 + f) heading speed (t + 1) c 0).1 := by
    simp only [turnToHeading]
    rw [if_neg (by omega)]
  rw [hlhs]
  have h := turnLoop_frozen c heading hne 6 f speed (t + 1) 0 (by omega) (by omega)
  rw [h, show (t + 1) + 6 = t + 7 from by omega]

/-- `armLoop` returns the first polling index whose reading satisfies
the stop condition, provided the fuel outlasts it. -/
theorem armLoop_first_stop (enc : ℕ → ℤ) (stop : ℤ → Bool) :
    ∀ (k n fuel : ℕ), (∀ m, m < k → stop (enc (n + m)) = false) →
      stop (enc (n + k)) = true → k < fuel →
      armLoop enc stop n fuel = some (n + k) := by
  intro k
  induction k with
  | zero =>
    intro n fuel _ hstop hfuel
    match fuel, hfuel with
    | fuel + 1, _ =>
      simp only [armLoop]
      rw [show n + 0 = n from rfl] at hstop
      rw [if_pos hstop]
      rfl
  | succ k ih =>
    intro n fuel hfalse hstop hfuel
    match fuel, hfuel with
    | fuel + 1, hfuel =>
      simp only [armLoop]
      rw [if_neg (by simpa using hfalse 0 (by omega))]
      have h1 : ∀ m, m < k → stop (enc (n + 1 + m)) = false := by
        intro m hm
        have := hfalse (m + 1) (by omega)
        rwa [show n + (m + 1) = n + 1 + m from by omega] at this
      have h2 : stop (enc (n + 1 + k)) = true := by
        rwa [show n + (k + 1) = n + 1 + k from by omega] at hstop
      rw [ih (n + 1) fuel h1 h2 (by omega)]
      rw [show n + 1 + k = n + (k + 1) from by omega]

/-- If no reading ever satisfies the stop condition, `armLoop` never
returns, whatever the fuel. -/
theorem armLoop_never_stops (enc : ℕ → ℤ) (stop : ℤ → Bool)
    (h : ∀ m, stop (enc m) = false) :
    ∀ (fuel n : ℕ), armLoop enc stop n fuel = none := by
  intro fuel
  induction fuel with
  | zero => intro n; rfl
  | succ f ih =>
    intro n
    simp only [armLoop]
    rw [if_neg (by simp [h n])]
    exact ih (n + 1)

/-- The output of `clampRaw` always lies in `[-127, 127]`. -/
theorem clampRaw_mem (y : ℤ) : -127 ≤ clampRaw y ∧ clampRaw y ≤ 127 := by
  unfold clampRaw
  split_ifs with h
  · exact ⟨le_max_right y (-127), max_le (by omega) (by omega)⟩
  · exact ⟨le_min (by omega) (by omega), min_le_right y 127⟩

/-- `clampRaw` is the identity on `[-127, 127]`. -/
theorem clampRaw_eq_self {y : ℤ} (h1 : -127 ≤ y) (h2 : y ≤ 127) : clampRaw y = y := by
  unfold clampRaw
  split_ifs with h
  · exact max_eq_left h1
  · exact min_eq_left h2

set_option maxRecDepth 10000 in
/-- Exhaustive check: the logarithmic curve stays within `[-100, 100]`
on the clamped domain. -/
theorem logCurve_abs_aux : ∀ k : ℕ, k < 255 → |logCurve (-127 + (k:ℤ))| ≤ 100 := by
  decide

set_option maxRecDepth 10000 in
/-- Exhaustive check: the linear curve stays within `[-100, 100]` on
the clamped domain. -/
theorem linCurve_abs_aux : ∀ k : ℕ, k < 255 → |linCurve (-127 + (k:ℤ))| ≤ 100 := by
  decide

set_option maxRecDepth 10000 in
/-- Exhaustive check: the logarithmic curve is monotone between
adjacent inputs of the clamped domain. -/
theorem logCurve_step_aux :
    ∀ k : ℕ, k < 254 → logCurve (-127 + (k:ℤ)) ≤ logCurve (-127 + (k:ℤ) + 1) := by
  decide

set_option maxRecDepth 10000 in
/-- Exhaustive check: the logarithmic curve is odd on the clamped
domain. -/
theorem logCurve_odd_aux :
    ∀ k : ℕ, k < 255 → logCurve (-(-127 + (k:ℤ))) = -logCurve (-127 + (k:ℤ)) := by
  decide

/-- The selected curve output is bounded by 100 in absolute value on
the clamped domain. -/
theorem curve_abs_le (useLog : Bool) (y : ℤ) (h1 : -127 ≤ y) (h2 : y ≤ 127) :
    |(if useLog then logCurve y else linCurve y)| ≤ 100 := by
  have hk : y = -127 + (((y + 127).toNat : ℕ) : ℤ) := by omega
  have hlt : (y + 127).toNat < 255 := by omega
  cases useLog with
  | false =>
    show |linCurve y| ≤ 100
    rw [hk]
    exact linCurve_abs_aux _ hlt
  | true =>
    show |logCurve y| ≤ 100
    rw [hk]
    exact logCurve_abs_aux _ hlt

/-- The final rescale step of `scaleJoystick`: with `|c| ≤ 100` and
`0 < mp < 100`, the C computation `c * mp / 100` stays within
`[-mp, mp]`. -/
theorem tdiv_scale_abs_le {c mp : ℤ} (hc : |c| ≤ 100) (h0 : 0 < mp) (h100 : mp < 100) :
    |(c * mp).tdiv 100| ≤ mp := by
  have h1 : ((c * mp).tdiv 100).natAbs = (c * mp).natAbs / 100 := Int.natAbs_tdiv _ _
  have h2 : (c * mp).natAbs = c.natAbs * mp.natAbs := Int.natAbs_mul c mp
  rw [Int.abs_eq_natAbs] at hc
  have h3 : c.natAbs ≤ 100 := by omega
  have h5 : c.natAbs * mp.natAbs / 100 ≤ mp.natAbs :=
    le_trans (Nat.div_le_div_right (Nat.mul_le_mul_right _ h3)) (by omega)
  rw [Int.abs_eq_natAbs]
  omega

/-- Monotonicity on an integer interval follows from monotonicity
between adjacent points. -/
theorem int_mono_of_step (f : ℤ → ℤ) (lo hi : ℤ)
    (hstep : ∀ x, lo ≤ x → x < hi → f x ≤ f (x + 1)) :
    ∀ a b : ℤ, lo ≤ a → a ≤ b → b ≤ hi → f a ≤ f b := by
  intro a b ha hab hb
  obtain ⟨n, rfl⟩ := Int.le.dest hab
  clear hab
  revert hb
  induction n with
  | zero =>
    intro _
    simp
  | succ k ih =>
    intro hb
    have hk : a + (k : ℤ) ≤ hi := by push_cast at hb ⊢; omega
    calc f a ≤ f (a + (k : ℤ)) := ih hk
      _ ≤ f (a + (k : ℤ) + 1) := hstep (a + (k : ℤ)) (by omega) (by omega)
      _ = f (a + ((k + 1 : ℕ) : ℤ)) := by push_cast; ring_nf

/-- With the default maximum power, `scaleJoystick` in logarithmic mode
is just the logarithmic curve on the clamped domain. -/
theorem scale_log_default {y : ℤ} (h1 : -127 ≤ y) (h2 : y ≤ 127) :
    scaleJoystick true y 100 = logCurve y := by
  simp only [scaleJoystick, kMaximumPowerLevel]
  rw [clampRaw_eq_self h1 h2, if_neg (by omega : ¬((100:ℤ) < 100 ∧ (0:ℤ) < 100))]
  simp

/-- Truncation toward zero never increases the magnitude. -/
theorem abs_trunc_le (r : ℝ) : |((trunc r : ℤ) : ℝ)| ≤ |r| := by
  unfold trunc
  split_ifs with h
  · have h0 : (0:ℝ) ≤ ((⌊r⌋ : ℤ) : ℝ) := by
      exact_mod_cast Int.floor_nonneg.mpr h
    rw [abs_of_nonneg h0, abs_of_nonneg h]
    exact Int.floor_le r
  · push_neg at h
    have hc : ((⌈r⌉ : ℤ) : ℝ) ≤ 0 := by
      have hz : ⌈r⌉ ≤ (0:ℤ) := Int.ceil_le.mpr (by exact_mod_cast h.le)
      exact_mod_cast hz
    rw [abs_of_nonpos hc, abs_of_nonpos h.le]
    exact neg_le_neg (Int.le_ceil r)

/-- `cap100` clamps toward zero, so it never increases the magnitude. -/
theorem abs_cap100_le (v : ℤ) : |cap100 v| ≤ |v| := by
  unfold cap100
  split_ifs with h
  · have h1 : 0 ≤ min v 100 := le_min (le_of_lt h) (by norm_num)
    rw [abs_of_nonneg h1, abs_of_pos h]
    exact min_le_left v 100
  · have h2 : max v (-100) ≤ 0 := max_le (not_lt.mp h) (by norm_num)
    rw [abs_of_nonpos h2, abs_of_nonpos (not_lt.mp h)]
    exact neg_le_neg (le_max_left v (-100))

/-- The four holonomic wheel mixes are bounded by the common bound of
the two vector components. -/
theorem wheel_mix_le (x y m : ℝ) (hx : |x| ≤ m) (hy : |y| ≤ m) :
    |(-x - y) / 2| ≤ m ∧ |(-x + y) / 2| ≤ m ∧ |(x + y) / 2| ≤ m ∧ |(x - y) / 2| ≤ m := by
  have h1 := abs_le.mp hx
  have h2 := abs_le.mp hy
  refine ⟨?_, ?_, ?_, ?_⟩ <;> (rw [abs_le]; constructor) <;> linarith [h1.1, h1.2, h2.1, h2.2]

/-! ## Claim theorems -/

/-- C2: for every sensor trace, target heading, fuel and trace position,
`turnToHeading` with `speed > 100` returns `false` immediately, with an
empty event log: no sensor read and no `spin` call. -/
theorem claim2_overspeed_fails_silently (sensor : ℕ → ℤ) (fuel : ℕ)
    (heading speed : ℤ) (t : ℕ) (h : 100 < speed) :
    turnToHeading sensor fuel heading speed t = (some false, []) := by
  unfold turnToHeading
  rw [if_pos h]

theorem claim2_witness : turnToHeading (fun _ => 0) 5 90 101 0 = (some false, []) :=
  claim2_overspeed_fails_silently (fun _ => 0) 5 90 101 0 (by norm_num)

/-- C3 counterexample: the claim "`spin(s)` sets all four wheels to
`cap(s)` for every integer `s`" fails at `s = 150`: `spin` assigns the
raw value `150` to the wheels, while `cap100 150 = 100`. -/
theorem claim3_counterexample : (spin 150).nw ≠ cap100 150 := by decide

/-- C3 (amended): `spin(s)` sets all four wheel motors to the identical
raw value `s` — no clamping is applied inside `spin` — and this
coincides with `cap(s)` exactly when `s` lies in `[-100, 100]`. -/
theorem claim3_spin_sets_all_wheels (s : ℤ) :
    spin s = ⟨s, s, s, s⟩ ∧
    (-100 ≤ s → s ≤ 100 →
      spin s = ⟨cap100 s, cap100 s, cap100 s, cap100 s⟩) := by
  refine ⟨rfl, fun h1 h2 => ?_⟩
  rw [cap100_eq_self h1 h2]
  rfl

theorem claim3_witness :
    spin 50 = ⟨50, 50, 50, 50⟩ ∧
    spin 50 = ⟨cap100 50, cap100 50, cap100 50, cap100 50⟩ :=
  ⟨(claim3_spin_sets_all_wheels 50).1,
   (claim3_spin_sets_all_wheels 50).2 (by norm_num) (by norm_num)⟩

/-- C10: in logarithmic mode the curve has an undocumented dead band:
every raw reading with `|raw| ≤ 7` (bucket indices 0 and 1, table
entries 0) maps to exactly 0, while `raw = 8` already gives `±6`;
linear mode's documented dead band is `|raw| < 10` (9 maps to 0,
10 maps to 7). -/
theorem claim10_log_dead_band :
    (∀ raw : ℤ, -7 ≤ raw → raw ≤ 7 → scaleJoystick true raw 100 = 0) ∧
    scaleJoystick true 8 100 = 6 ∧ scaleJoystick true (-8) 100 = -6 ∧
    (∀ raw : ℤ, -9 ≤ raw → raw ≤ 9 → scaleJoystick false raw 100 = 0) ∧
    scaleJoystick false 10 100 = 7 := by
  refine ⟨?_, by decide, by decide, ?_, by decide⟩
  · intro raw h1 h2
    interval_cases raw <;> decide
  · intro raw h1 h2
    interval_cases raw <;> decide

theorem claim10_witness :
    scaleJoystick true 7 100 = 0 ∧ scaleJoystick false 9 100 = 0 :=
  ⟨claim10_log_dead_band.1 7 (by norm_num) (by norm_num),
   claim10_log_dead_band.2.2.2.1 9 (by norm_num) (by norm_num)⟩

/-- C5: `turnToHeading` succeeds exactly on an exact integer match of a
polled reading with the target: (i) on a trace whose readings never
equal the target it never returns `true`, for any fuel, speed and
position (there is no tolerance band); (ii) when the first loop poll
reads exactly the target (and the speed guard passes) it returns
`true`. -/
theorem claim5_exact_match_success (sensor : ℕ → ℤ) (heading : ℤ) :
    ((∀ n, sensor n ≠ heading) →
      ∀ (fuel : ℕ) (speed : ℤ) (t : ℕ),
        (turnToHeading sensor fuel heading speed t).1 ≠ some true) ∧
    (∀ (fuel : ℕ) (speed : ℤ) (t : ℕ), speed ≤ 100 → sensor (t + 1) = heading →
      (turnToHeading sensor (fuel + 1) heading speed t).1 = some true) := by
  constructor
  · intro hs fuel speed t
    unfold turnToHeading
    split_ifs with h
    · simp
    · exact turnLoop_ne_true sensor heading hs fuel speed (t + 1) (sensor t) 0
  · intro fuel speed t hsp heq
    unfold turnToHeading
    rw [if_neg (by omega)]
    simp only [turnLoop]
    rw [if_pos heq.symm]

theorem claim5_witness :
    (turnToHeading (fun _ => 1) 3 0 20 0).1 ≠ some true ∧
    (turnToHeading (fun _ => 0) 1 0 20 0).1 = some true :=
  ⟨(claim5_exact_match_success (fun _ => 1) 0).1 (fun _ => by norm_num) 3 20 0,
   (claim5_exact_match_success (fun _ => 0) 0).2 0 20 0 (by norm_num) rfl⟩

/-- C4: the spin command of the aligning loop is derived from the
target heading itself, not from the remaining angular error: (i) every
`spin` command `turnToHeading` ever issues is `20 * heading` (or the
stall stop `0`); (ii) on any polling iteration whose reading differs
from the target, the loop issues exactly `spin (20 * heading)`,
whatever the current reading is. -/
theorem claim4_spin_scaled_by_target (sensor : ℕ → ℤ) (heading speed : ℤ)
    (fuel t : ℕ) (last : ℤ) (num : ℕ) :
    (∀ s, Event.spinCmd s ∈ (turnToHeading sensor fuel heading speed t).2 →
      s = 20 * heading ∨ s = 0) ∧
    (heading ≠ sensor t →
      ∃ rest, (turnLoop sensor (fuel + 1) heading speed t last num).2 =
        Event.sensorRead (sensor t) :: Event.spinCmd (20 * heading) :: rest) := by
  constructor
  · intro s h
    unfold turnToHeading at h
    split_ifs at h with h100
    · simp at h
    · refine turnLoop_spin_values sensor heading fuel speed (t + 1) (sensor t) 0 s ?_
      simpa using h
  · intro hne
    simp only [turnLoop]
    rw [if_neg hne]
    split_ifs <;> exact ⟨_, rfl⟩

/-- C1: (i) whenever the aligning loop observes a reading equal to the
previous one with the consecutive-identical counter already at 5 (i.e.
more than 5 consecutive identical readings) while the target is not
reached, it commands `spin 0` and retries `turnToHeading` once at
`speed + 10` with the same target; (ii) on a frozen trace, starting
from base speed 60, five consecutive stalls escalate the speed past
100 (60 → 70 → 80 → 90 → 100 → 110) and the call returns `false`. -/
theorem claim1_stall_retry_escalation :
    (∀ (sensor : ℕ → ℤ) (f : ℕ) (heading speed : ℤ) (t : ℕ) (last : ℤ) (num : ℕ),
      heading ≠ sensor t → sensor t = last → 5 ≤ num →
      turnLoop sensor (f + 1) heading speed t last num =
        ((turnToHeading sensor f heading (speed + 10) (t + 1)).1,
         Event.sensorRead (sensor t) :: Event.spinCmd (20 * heading) :: Event.spinCmd 0 ::
           (turnToHeading sensor f heading (speed + 10) (t + 1)).2)) ∧
    (∀ (heading c : ℤ) (f t : ℕ), c ≠ heading →
      (turnToHeading (fun _ => c) (30 + f) heading 60 t).1 = some false) := by
  constructor
  · intro sensor f heading speed t last num h1 h2 h3
    simp only [turnLoop]
    rw [if_neg h1, if_pos h2, if_pos (by omega : 5 < num + 1)]
    unfold turnToHeading
    split_ifs with h100
    · rfl
    · rfl
  · intro heading c f t hne
    have hne' : heading ≠ c := fun h => hne h.symm
    have s1 := turnToHeading_frozen_attempt c heading hne' (24 + f) t 60 (by norm_num)
    have s2 := turnToHeading_frozen_attempt c heading hne' (18 + f) (t + 7) 70 (by norm_num)
    have s3 := turnToHeading_frozen_attempt c heading hne' (12 + f) (t + 14) 80 (by norm_num)
    have s4 := turnToHeading_frozen_attempt c heading hne' (6 + f) (t + 21) 90 (by norm_num)
    have s5 := turnToHeading_frozen_attempt c heading hne' f (t + 28) 100 (by norm_num)
    rw [show (6:ℕ) + (24 + f) = 30 + f from by omega,
        show (60:ℤ) + 10 = 70 from by norm_num] at s1
    rw [show (6:ℕ) + (18 + f) = 24 + f from by omega,
        show t + 7 + 7 = t + 14 from by omega,
        show (70:ℤ) + 10 = 80 from by norm_num] at s2
    rw [show (6:ℕ) + (12 + f) = 18 + f from by omega,
        show t + 14 + 7 = t + 21 from by omega,
        show (80:ℤ) + 10 = 90 from by norm_num] at s3
    rw [show (6:ℕ) + (6 + f) = 12 + f from by omega,
        show t + 21 + 7 = t + 28 from by omega,
        show (90:ℤ) + 10 = 100 from by norm_num] at s4
    rw [s1, s2, s3, s4, s5]
    unfold turnToHeading
    rw [if_pos (by norm_num : (100:ℤ) < 100 + 10)]

theorem claim1_witness :
    turnLoop (fun _ => 7) 4 90 20 3 7 5 =
      ((turnToHeading (fun _ => 7) 3 90 (20 + 10) 4).1,
       Event.sensorRead 7 :: Event.spinCmd (20 * 90) :: Event.spinCmd 0 ::
         (turnToHeading (fun _ => 7) 3 90 (20 + 10) 4).2) ∧
    (turnToHeading (fun _ => 7) 30 90 60 0).1 = some false :=
  ⟨claim1_stall_retry_escalation.1 (fun _ => 7) 3 90 20 3 7 5
      (by norm_num) rfl (by norm_num),
   claim1_stall_retry_escalation.2 90 7 0 0 (by norm_num)⟩

theorem claim4_witness :
    ((20 * 90 : ℤ) = 20 * 90 ∨ (20 * 90 : ℤ) = 0) ∧
    (∃ rest, (turnLoop (fun _ => 5) 1 90 20 0 5 0).2 =
      Event.sensorRead 5 :: Event.spinCmd (20 * 90) :: rest) :=
  ⟨(claim4_spin_scaled_by_target (fun _ => 5) 90 20 2 0 5 0).1 (20 * 90) (by decide),
   (claim4_spin_scaled_by_target (fun _ => 5) 90 20 0 0 5 0).2 (by decide)⟩

/-- C6: for every speed in `[-100, 100]` and heading in `[0, 360)`,
each of the four wheel values computed by `moveRobot` is bounded in
magnitude by the commanded speed magnitude. -/
theorem claim6_wheels_bounded_by_speed (speed angle : ℝ)
    (h1 : -100 ≤ speed) (h2 : speed ≤ 100) (h3 : 0 ≤ angle) (h4 : angle < 360) :
    |((moveRobot speed angle).nw : ℝ)| ≤ |speed| ∧
    |((moveRobot speed angle).ne : ℝ)| ≤ |speed| ∧
    |((moveRobot speed angle).se : ℝ)| ≤ |speed| ∧
    |((moveRobot speed angle).sw : ℝ)| ≤ |speed| := by
  have hcap : |((cap100 (trunc speed) : ℤ) : ℝ)| ≤ |speed| := by
    have ha := abs_cap100_le (trunc speed)
    have ha' : |((cap100 (trunc speed) : ℤ) : ℝ)| ≤ |((trunc speed : ℤ) : ℝ)| := by
      exact_mod_cast ha
    exact le_trans ha' (abs_trunc_le speed)
  have hx : |Real.cos (angle * Real.pi / 180) * ((cap100 (trunc speed) : ℤ) : ℝ)| ≤
      |((cap100 (trunc speed) : ℤ) : ℝ)| := by
    rw [abs_mul]
    calc |Real.cos (angle * Real.pi / 180)| * |((cap100 (trunc speed) : ℤ) : ℝ)|
        ≤ 1 * |((cap100 (trunc speed) : ℤ) : ℝ)| :=
          mul_le_mul_of_nonneg_right (Real.abs_cos_le_one _) (abs_nonneg _)
      _ = |((cap100 (trunc speed) : ℤ) : ℝ)| := one_mul _
  have hy : |Real.sin (angle * Real.pi / 180) * ((cap100 (trunc speed) : ℤ) : ℝ)| ≤
      |((cap100 (trunc speed) : ℤ) : ℝ)| := by
    rw [abs_mul]
    calc |Real.sin (angle * Real.pi / 180)| * |((cap100 (trunc speed) : ℤ) : ℝ)|
        ≤ 1 * |((cap100 (trunc speed) : ℤ) : ℝ)| :=
          mul_le_mul_of_nonneg_right (Real.abs_sin_le_one _) (abs_nonneg _)
      _ = |((cap100 (trunc speed) : ℤ) : ℝ)| := one_mul _
  obtain ⟨w1, w2, w3, w4⟩ :=
    wheel_mix_le (Real.cos (angle * Real.pi / 180) * ((cap100 (trunc speed) : ℤ) : ℝ))
      (Real.sin (angle * Real.pi / 180) * ((cap100 (trunc speed) : ℤ) : ℝ))
      |((cap100 (trunc speed) : ℤ) : ℝ)| hx hy
  refine ⟨?_, ?_, ?_, ?_⟩
  · exact le_trans (le_trans (abs_trunc_le _) w1) hcap
  · exact le_trans (le_trans (abs_trunc_le _) w2) hcap
  · exact le_trans (le_trans (abs_trunc_le _) w3) hcap
  · exact le_trans (le_trans (abs_trunc_le _) w4) hcap

theorem claim6_witness :
    |((moveRobot 0 0).nw : ℝ)| ≤ |(0:ℝ)| ∧
    |((moveRobot 0 0).ne : ℝ)| ≤ |(0:ℝ)| ∧
    |((moveRobot 0 0).se : ℝ)| ≤ |(0:ℝ)| ∧
    |((moveRobot 0 0).sw : ℝ)| ≤ |(0:ℝ)| :=
  claim6_wheels_bounded_by_speed 0 0 (by norm_num) (by norm_num) (by norm_num) (by norm_num)

/-- C7: for every raw reading in `[-128, 127]` and either curve mode,
a `maxPower` in `(0, 100]` bounds the output magnitude by `maxPower`,
while a `maxPower` outside `(0, 100]` is silently ignored: the result
equals the unscaled `scaleJoystick(raw, 100)`. -/
theorem claim7_maxPower_bound_or_ignored (useLog : Bool) (raw mp : ℤ)
    (h1 : -128 ≤ raw) (h2 : raw ≤ 127) :
    ((0 < mp ∧ mp ≤ 100) → |scaleJoystick useLog raw mp| ≤ mp) ∧
    (¬(0 < mp ∧ mp ≤ 100) → scaleJoystick useLog raw mp = scaleJoystick useLog raw 100) := by
  have hcb := curve_abs_le useLog (clampRaw raw) (clampRaw_mem raw).1 (clampRaw_mem raw).2
  constructor
  · rintro ⟨hmp0, hmp100⟩
    simp only [scaleJoystick, kMaximumPowerLevel]
    set C := if useLog = true then logCurve (clampRaw raw) else linCurve (clampRaw raw)
      with hC
    split_ifs with hcond
    · exact tdiv_scale_abs_le hcb hmp0 hcond.1
    · have hmp : mp = 100 := by omega
      rw [hmp]
      exact hcb
  · intro hmp
    simp only [scaleJoystick, kMaximumPowerLevel]
    rw [if_neg (by omega : ¬(mp < 100 ∧ 0 < mp)),
        if_neg (by omega : ¬((100:ℤ) < 100 ∧ (0:ℤ) < 100))]

theorem claim7_witness :
    ((0:ℤ) < 50 ∧ (50:ℤ) ≤ 100) ∧
    |scaleJoystick true 127 50| ≤ 50 ∧
    scaleJoystick true 127 150 = scaleJoystick true 127 100 :=
  ⟨by norm_num,
   (claim7_maxPower_bound_or_ignored true 127 50 (by norm_num) (by norm_num)).1
     (by norm_num),
   (claim7_maxPower_bound_or_ignored true 127 150 (by norm_num) (by norm_num)).2
     (by norm_num)⟩

/-- C8: in logarithmic mode with the default `maxPower = 100`, the
shaped output is monotone non-decreasing over raw readings in
`[-127, 127]`, and it is odd: `shape(-raw) = -shape(raw)` (the sign of
the input is reapplied to the table-looked-up magnitude). -/
theorem claim8_log_monotone_and_odd :
    (∀ a b : ℤ, -127 ≤ a → a ≤ b → b ≤ 127 →
      scaleJoystick true a 100 ≤ scaleJoystick true b 100) ∧
    (∀ raw : ℤ, -127 ≤ raw → raw ≤ 127 →
      scaleJoystick true (-raw) 100 = -scaleJoystick true raw 100) := by
  constructor
  · intro a b ha hab hb
    rw [scale_log_default ha (by omega), scale_log_default (by omega : -127 ≤ b) hb]
    refine int_mono_of_step logCurve (-127) 127 ?_ a b ha hab hb
    intro x hx1 hx2
    have hk : x = -127 + (((x + 127).toNat : ℕ) : ℤ) := by omega
    have hlt : (x + 127).toNat < 254 := by omega
    rw [hk]
    exact logCurve_step_aux _ hlt
  · intro raw hr1 hr2
    rw [scale_log_default (by omega : -127 ≤ -raw) (by omega : -raw ≤ 127),
        scale_log_default hr1 hr2]
    have hk : raw = -127 + (((raw + 127).toNat : ℕ) : ℤ) := by omega
    have hlt : (raw + 127).toNat < 255 := by omega
    rw [hk]
    exact logCurve_odd_aux _ hlt

theorem claim8_witness :
    scaleJoystick true 0 100 ≤ scaleJoystick true 127 100 ∧
    scaleJoystick true (-100) 100 = -scaleJoystick true 100 100 :=
  ⟨claim8_log_monotone_and_odd.1 0 127 (by norm_num) (by norm_num) (by norm_num),
   claim8_log_monotone_and_odd.2 100 (by norm_num) (by norm_num)⟩

/-- C9: `armStep` with positive speed returns at the first poll whose
encoder reading reaches `|stepSize|` (and with negative speed at the
first poll reaching `-|stepSize|`); on a trace that never crosses the
threshold it returns `none` for every fuel — the loop never exits, and
the source has no timeout. -/
theorem claim9_armStep_encoder_threshold (enc : ℕ → ℤ) (speed stepSize : ℤ) :
    (0 < speed →
      (∀ (n fuel : ℕ), (∀ m, m < n → enc m < |stepSize|) → |stepSize| ≤ enc n →
        n < fuel → armStep enc speed stepSize fuel = some n) ∧
      ((∀ n, enc n < |stepSize|) → ∀ fuel, armStep enc speed stepSize fuel = none)) ∧
    (speed < 0 →
      (∀ (n fuel : ℕ), (∀ m, m < n → -|stepSize| < enc m) → enc n ≤ -|stepSize| →
        n < fuel → armStep enc speed stepSize fuel = some n) ∧
      ((∀ n, -|stepSize| < enc n) → ∀ fuel, armStep enc speed stepSize fuel = none)) := by
  constructor
  · intro hsp
    have hdir : (if 0 < speed then (1:ℤ) else -1) = 1 := if_pos hsp
    constructor
    · intro n fuel hlt hge hfuel
      simp only [armStep, hdir, if_pos]
      have h1 : ∀ m, m < n → (fun e => decide (|stepSize| ≤ e)) (enc (0 + m)) = false := by
        intro m hm
        simp only [Nat.zero_add]
        exact decide_eq_false (not_le.mpr (hlt m hm))
      have h2 : (fun e => decide (|stepSize| ≤ e)) (enc (0 + n)) = true := by
        simp only [Nat.zero_add]
        exact decide_eq_true hge
      have h3 := armLoop_first_stop enc (fun e => decide (|stepSize| ≤ e)) n 0 fuel h1 h2 hfuel
      rw [h3, show 0 + n = n from by omega]
    · intro hnever fuel
      simp only [armStep, hdir, if_pos]
      exact armLoop_never_stops enc _ (fun m => decide_eq_false (not_le.mpr (hnever m))) fuel 0
  · intro hsp
    have hdir : (if 0 < speed then (1:ℤ) else -1) = -1 := if_neg (by omega)
    constructor
    · intro n fuel hlt hge hfuel
      simp only [armStep, hdir]
      rw [if_neg (by norm_num)]
      have h1 : ∀ m, m < n → (fun e => decide (e ≤ -|stepSize|)) (enc (0 + m)) = false := by
        intro m hm
        simp only [Nat.zero_add]
        exact decide_eq_false (not_le.mpr (hlt m hm))
      have h2 : (fun e => decide (e ≤ -|stepSize|)) (enc (0 + n)) = true := by
        simp only [Nat.zero_add]
        exact decide_eq_true hge
      have h3 := armLoop_first_stop enc (fun e => decide (e ≤ -|stepSize|)) n 0 fuel h1 h2 hfuel
      rw [h3, show 0 + n = n from by omega]
    · intro hnever fuel
      simp only [armStep, hdir]
      rw [if_neg (by norm_num)]
      exact armLoop_never_stops enc _ (fun m => decide_eq_false (not_le.mpr (hnever m))) fuel 0

theorem claim9_witness :
    armStep (fun n => 50 * (n:ℤ)) 50 100 5 = some 2 ∧
    armStep (fun _ => 0) 50 100 7 = none :=
  ⟨((claim9_armStep_encoder_threshold (fun n => 50 * (n:ℤ)) 50 100).1 (by norm_num)).1 2 5
      (by intro m hm; interval_cases m <;> norm_num) (by norm_num) (by norm_num),
   ((claim9_armStep_encoder_threshold (fun _ => 0) 50 100).1 (by norm_num)).2
      (fun _ => by norm_num) 7⟩

end FTC4560
